import Mathlib

/-!
Shallow embedding of the bookkeeping computation core of the tabuledge
repository (`src/utils/financials.js` and `src/utils/ratios.js`), together
with theorems settling the frozen claims about it.

Modelling conventions:
* JavaScript numbers are idealised as exact rationals (`ℚ`); the ratio
  engine additionally models the non-finite values `Infinity`, `-Infinity`
  and `NaN` through the `JSNum` type, because `safeDivide` branches on
  finiteness.
* Millisecond timestamps (`Date.getTime()`) are modelled as `ℤ`.
* A `date` / `createdAt` field of a ledger entry is a Firestore `Timestamp`
  (`DateField.ts`), a string (`DateField.str`, carrying `some ms` when
  `new Date(s)` parses and `none` when it yields `NaN`), or absent.
* The date window bounds `from` / `to` are `Option ℤ`: `none` models an
  absent (falsy) bound, which the source turns into `-Infinity` / `+Infinity`.
* A JavaScript `Map` keyed by account id is modelled as a `List BalRec` in
  insertion order; `mapSet` mirrors `Map.set` (overwrite in place, else
  append) and `mapGet` mirrors `Map.get`.
* Missing numeric fields coerced by `Number(x || 0)` are modelled by taking
  the already-coerced rational as the field value (accounts, entries), and
  explicitly via `numOrZero` where non-finite inputs matter (ratio engine).
-/

namespace Tabuledge

/-- `String.prototype.toLowerCase()`, modelled characterwise on the string's
character list (all strings the core compares are ASCII). -/
def jsToLower (s : String) : String := String.mk (s.data.map Char.toLower)

/-- `pat` occurs at the start of `l`. -/
def seqStartsWith : List Char → List Char → Bool
  | [], _ => true
  | _ :: _, [] => false
  | p :: ps, c :: cs => p == c && seqStartsWith ps cs

/-- `pat` occurs somewhere in `l`. -/
def seqContains (pat l : List Char) : Bool :=
  match l with
  | [] => pat.isEmpty
  | _ :: rest => seqStartsWith pat l || seqContains pat rest

/-- `String.prototype.includes(pat)`, modelled on the character lists. -/
def jsIncludes (s pat : String) : Bool := seqContains pat.data s.data

/-- An account record as read by the core (absent string fields are `""`,
`initialBalance` is the result of the `Number(a.initialBalance || 0)`
coercion; the `type` field is filled in by `normalizeAccount`). -/
structure Account where
  id : String
  name : String
  number : String
  category : String
  subcategory : String
  normalSide : String
  initialBalance : ℚ
  type : String
deriving DecidableEq, Repr

/-- `normalizeAccount` from financials.js: sets `type` to the lowercased
category and coerces `number` to a string (already a string here). -/
def normalizeAccount (a : Account) : Account :=
  { a with type := jsToLower a.category, number := a.number }

/-- `isDebitNormal` from financials.js. -/
def isDebitNormal (account : Account) : Bool :=
  let side := jsToLower account.normalSide
  if side = "debit" then true
  else if side = "credit" then false
  else
    let cat := jsToLower account.category
    cat = "asset" || cat = "expense"

/-- A `date` or `createdAt` field of a raw ledger entry. -/
inductive DateField where
  | ts (ms : ℤ)
  | str (parsed : Option ℤ)
  | absent
deriving DecidableEq, Repr

/-- A ledger transaction as read by `computeBalances` (`debit` and `credit`
are the results of the `Number(e.debit || 0)` / `Number(e.credit || 0)`
coercions). -/
structure LedgerEntry where
  accountId : String
  debit : ℚ
  credit : ℚ
  date : DateField
  createdAt : DateField
deriving DecidableEq, Repr

/-- The `pickWhen` closure of `computeBalances`: a Timestamp `date`, else a
Timestamp `createdAt`, else a parseable string `date`, else a parseable
string `createdAt`, else `0`. -/
def pickWhen (e : LedgerEntry) : ℤ :=
  match e.date, e.createdAt with
  | .ts m, _ => m
  | _, .ts m => m
  | .str (some m), _ => m
  | _, .str (some m) => m
  | _, _ => 0

/-- `when < fromMs` from the skip test of `computeBalances`; an absent
`from` is `-Infinity` in the source, below no timestamp. -/
def belowFrom (fromMs : Option ℤ) (w : ℤ) : Bool :=
  match fromMs with
  | some f => w < f
  | none => false

/-- `when > toMs` from the skip test of `computeBalances`; an absent `to`
is `+Infinity` in the source, above no timestamp. -/
def aboveTo (toMs : Option ℤ) (w : ℤ) : Bool :=
  match toMs with
  | some t => w > t
  | none => false

/-- A balance record of the map built by `computeBalances` (`beginBal` and
`endBal` are the source's `begin` and `end` fields, renamed because both
are Lean keywords). -/
structure BalRec where
  account : Account
  debitTotal : ℚ
  creditTotal : ℚ
  beginBal : ℚ
  endBal : ℚ
deriving DecidableEq, Repr

/-- `Map.set` on the account-keyed map: overwrite in place when the key is
present, append otherwise. -/
def mapSet (m : List BalRec) (r : BalRec) : List BalRec :=
  if m.any (fun x => x.account.id == r.account.id) then
    m.map (fun x => if x.account.id == r.account.id then r else x)
  else m ++ [r]

/-- `Map.get` on the account-keyed map. -/
def mapGet (m : List BalRec) (id : String) : Option BalRec :=
  m.find? (fun x => x.account.id == id)

/-- The fresh record `computeBalances` installs for an account. -/
def initRec (a : Account) : BalRec :=
  { account := a, debitTotal := 0, creditTotal := 0,
    beginBal := a.initialBalance, endBal := a.initialBalance }

/-- The initial map of `computeBalances`: one record per (normalized)
account, built with `Map.set`. -/
def initMap (accounts : List Account) : List BalRec :=
  (accounts.map normalizeAccount).foldl (fun m a => mapSet m (initRec a)) []

/-- The per-entry mutation of the loop body of `computeBalances`. -/
def updateRec (e : LedgerEntry) (r : BalRec) : BalRec :=
  { r with
    debitTotal := r.debitTotal + e.debit,
    creditTotal := r.creditTotal + e.credit,
    endBal := if isDebitNormal r.account then r.endBal + e.debit - e.credit
              else r.endBal + e.credit - e.debit }

/-- One iteration of the entry loop of `computeBalances`: skip the entry
when its effective date is outside the window or its account is unknown,
otherwise update that account's record in place. -/
def applyEntry (fromMs toMs : Option ℤ) (m : List BalRec) (e : LedgerEntry) :
    List BalRec :=
  if belowFrom fromMs (pickWhen e) || aboveTo toMs (pickWhen e) then m
  else if (mapGet m e.accountId).isSome then
    m.map (fun r => if r.account.id == e.accountId then updateRec e r else r)
  else m

/-- `computeBalances` from financials.js. -/
def computeBalances (accounts : List Account) (ledgerEntries : List LedgerEntry)
    (fromMs toMs : Option ℤ) : List BalRec :=
  ledgerEntries.foldl (applyEntry fromMs toMs) (initMap accounts)

/-- Result type of `incomeStatement`. -/
structure IncomeStatement where
  revenue : ℚ
  expenses : ℚ
  netIncome : ℚ
deriving DecidableEq, Repr

/-- `incomeStatement` from financials.js. -/
def incomeStatement (accMap : List BalRec) : IncomeStatement :=
  let p := accMap.foldl (fun (p : ℚ × ℚ) r =>
    let cat := jsToLower r.account.category
    let n := r.endBal
    (if cat = "revenue" then p.1 + n else p.1,
     if cat = "expense" then p.2 + n else p.2)) (0, 0)
  { revenue := p.1, expenses := p.2, netIncome := p.1 - p.2 }

/-- Result type of `balanceSheet`. -/
structure BalanceSheet where
  currentAssets : ℚ
  inventory : ℚ
  currentLiabilities : ℚ
  totalLiabilities : ℚ
  totalAssets : ℚ
  totalEquity : ℚ
deriving DecidableEq, Repr

/-- The six running accumulators of the `balanceSheet` loop. -/
structure BSAcc where
  currentAssets : ℚ
  inventory : ℚ
  currentLiabilities : ℚ
  totalAssets : ℚ
  totalLiabilities : ℚ
  equity : ℚ
deriving DecidableEq, Repr

/-- `sub.includes("inventory")` on a lowercased subcategory string. -/
def containsInventory (s : String) : Bool :=
  jsIncludes s "inventory"

/-- One iteration of the `balanceSheet` loop. -/
def bsStep (acc : BSAcc) (r : BalRec) : BSAcc :=
  let amount := r.endBal
  let cat := jsToLower r.account.category
  let sub := jsToLower r.account.subcategory
  if cat = "asset" then
    { acc with
      totalAssets := acc.totalAssets + amount,
      currentAssets := acc.currentAssets + amount,
      inventory := if containsInventory sub then acc.inventory + amount
                   else acc.inventory }
  else if cat = "liability" then
    { acc with
      totalLiabilities := acc.totalLiabilities + amount,
      currentLiabilities := acc.currentLiabilities + amount }
  else if cat = "equity" then
    { acc with equity := acc.equity + amount }
  else acc

/-- `balanceSheet` from financials.js (the two trailing parameters default
to `0` in the source; callers here always pass them). -/
def balanceSheet (accMap : List BalRec)
    (retainedEarningsOpening periodNetIncome : ℚ) : BalanceSheet :=
  let acc := accMap.foldl bsStep
    { currentAssets := 0, inventory := 0, currentLiabilities := 0,
      totalAssets := 0, totalLiabilities := 0, equity := 0 }
  let retainedEarnings := retainedEarningsOpening + periodNetIncome
  { currentAssets := acc.currentAssets,
    inventory := acc.inventory,
    currentLiabilities := acc.currentLiabilities,
    totalLiabilities := acc.totalLiabilities,
    totalAssets := acc.totalAssets,
    totalEquity := acc.equity + retainedEarnings }

/-- `retainedEarningsStatement` from financials.js. -/
structure RetainedEarnings where
  opening : ℚ
  netIncome : ℚ
  dividends : ℚ
  ending : ℚ
deriving DecidableEq, Repr

/-- `retainedEarningsStatement` from financials.js. -/
def retainedEarningsStatement (opening netIncome dividends : ℚ) :
    RetainedEarnings :=
  { opening := opening, netIncome := netIncome, dividends := dividends,
    ending := opening + netIncome - dividends }

/-- A row of the trial balance. -/
structure TBRow where
  account : Account
  debit : ℚ
  credit : ℚ
deriving DecidableEq, Repr

/-- Result type of `trialBalanceRows` (`totalD` / `totalC` keep the
source's field names). -/
structure TrialBalance where
  rows : List TBRow
  totalD : ℚ
  totalC : ℚ
deriving DecidableEq, Repr

/-- The row built for one balance record by `trialBalanceRows`. -/
def tbRow (r : BalRec) : TBRow :=
  let debitNormal := isDebitNormal r.account
  let val := r.endBal
  { account := r.account,
    debit := if debitNormal then max val 0 else max (-val) 0,
    credit := if debitNormal then max (-val) 0 else max val 0 }

/-- `trialBalanceRows` from financials.js. -/
def trialBalanceRows (accMap : List BalRec) : TrialBalance :=
  let rows := accMap.map tbRow
  { rows := rows,
    totalD := rows.foldl (fun s row => s + row.debit) 0,
    totalC := rows.foldl (fun s row => s + row.credit) 0 }

/-- A JavaScript number, idealised: an exact rational, or one of the three
non-finite values. -/
inductive JSNum where
  | fin (q : ℚ)
  | posInf
  | negInf
  | nan
deriving DecidableEq, Repr

/-- `Number.isFinite`. -/
def JSNum.isFinite : JSNum → Bool
  | .fin _ => true
  | _ => false

/-- JavaScript subtraction on (idealised) numbers. -/
def JSNum.sub : JSNum → JSNum → JSNum
  | .fin a, .fin b => .fin (a - b)
  | .fin _, .posInf => .negInf
  | .fin _, .negInf => .posInf
  | .posInf, .fin _ => .posInf
  | .posInf, .negInf => .posInf
  | .negInf, .fin _ => .negInf
  | .negInf, .posInf => .negInf
  | _, _ => .nan

/-- `x > 0` on a JavaScript number (`NaN` compares false). -/
def JSNum.gtZero : JSNum → Bool
  | .fin q => q > 0
  | .posInf => true
  | _ => false

/-- `x < 0` on a JavaScript number (`NaN` compares false). -/
def JSNum.ltZero : JSNum → Bool
  | .fin q => q < 0
  | .negInf => true
  | _ => false

/-- `Number(x || 0)` where `x` is a possibly-absent number field: absent,
`null` and `NaN` are falsy and become `0`. -/
def numOrZero : Option JSNum → JSNum
  | none => .fin 0
  | some JSNum.nan => .fin 0
  | some v => v

/-- `safeDivide` from ratios.js: `null` when either operand is non-finite
or the denominator is zero, the exact quotient otherwise. -/
def safeDivide : JSNum → JSNum → Option ℚ
  | .fin n, .fin d => if d = 0 then none else some (n / d)
  | _, _ => none

/-- `value.toFixed(digits)` idealised on exact rationals (round to `digits`
decimal places, rendered with a fixed number of fraction digits). -/
def toFixedStr (q : ℚ) (digits : ℕ) : String :=
  let scaled : ℤ := round (q * ((10 : ℚ) ^ digits))
  let sign := if scaled < 0 then "-" else ""
  let a := scaled.natAbs
  let base := (10 : ℕ) ^ digits
  let ip := a / base
  let fp := a % base
  if digits = 0 then sign ++ toString ip
  else
    let fpStr := toString fp
    let pad := String.mk (List.replicate (digits - fpStr.length) '0')
    sign ++ toString ip ++ "." ++ pad ++ fpStr

/-- `formatRatio` from ratios.js. -/
def formatRatio (value : Option JSNum) (digits : ℕ) : String :=
  match value with
  | some (.fin q) => toFixedStr q digits ++ "x"
  | _ => "N/A"

/-- `formatPercent` from ratios.js. -/
def formatPercent (value : Option JSNum) (digits : ℕ) : String :=
  match value with
  | some (.fin q) => toFixedStr (q * 100) digits ++ "%"
  | _ => "N/A"

/-- `formatMoney` from ratios.js (`toLocaleString` idealised as plain
fixed-point rendering, without locale digit grouping). -/
def formatMoney (value : Option JSNum) (digits : ℕ) : String :=
  match value with
  | some (.fin q) => toFixedStr q digits
  | _ => "N/A"

/-- `bandHigherIsBetter` from ratios.js. -/
def bandHigherIsBetter (value : Option JSNum) (goodMin warnMin : ℚ) : String :=
  match value with
  | some (.fin q) => if q ≥ goodMin then "good"
                     else if q ≥ warnMin then "warning" else "bad"
  | _ => "warning"

/-- `bandLowerIsBetter` from ratios.js. -/
def bandLowerIsBetter (value : Option JSNum) (goodMax warnMax : ℚ) : String :=
  match value with
  | some (.fin q) => if q ≤ goodMax then "good"
                     else if q ≤ warnMax then "warning" else "bad"
  | _ => "warning"

/-- The `raw` totals object handed to `computeRatios`; `none` models an
absent (or `null`) field. -/
structure RatioInput where
  currentAssets : Option JSNum
  inventory : Option JSNum
  currentLiabilities : Option JSNum
  totalLiabilities : Option JSNum
  totalEquity : Option JSNum
  totalAssets : Option JSNum
  netIncome : Option JSNum
  revenue : Option JSNum
  quickAssets : Option JSNum
deriving DecidableEq, Repr

/-- One record of the `computeRatios` output. -/
structure RatioResult where
  key : String
  label : String
  formula : String
  value : Option JSNum
  formatted : String
  status : String
deriving DecidableEq, Repr

/-- The `quickAssets` local of `computeRatios`: the supplied field when it
is not `null`/absent, else `currentAssets - inventory`. -/
def quickAssetsOf (raw : RatioInput) : JSNum :=
  match raw.quickAssets with
  | some v => v
  | none => (numOrZero raw.currentAssets).sub (numOrZero raw.inventory)

/-- `computeRatios` from ratios.js. -/
def computeRatios (raw : RatioInput) : List RatioResult :=
  let currentAssets := numOrZero raw.currentAssets
  let currentLiabilities := numOrZero raw.currentLiabilities
  let totalLiabilities := numOrZero raw.totalLiabilities
  let totalEquity := numOrZero raw.totalEquity
  let totalAssets := numOrZero raw.totalAssets
  let netIncome := numOrZero raw.netIncome
  let revenue := numOrZero raw.revenue
  let quickAssets := quickAssetsOf raw
  let currentRatioVal := (safeDivide currentAssets currentLiabilities).map JSNum.fin
  let quickRatioVal := (safeDivide quickAssets currentLiabilities).map JSNum.fin
  let debtEquityVal := (safeDivide totalLiabilities totalEquity).map JSNum.fin
  let netMarginVal := (safeDivide netIncome revenue).map JSNum.fin
  let roaVal := (safeDivide netIncome totalAssets).map JSNum.fin
  let workingCapital := currentAssets.sub currentLiabilities
  [ { key := "currentRatio", label := "Current Ratio",
      formula := "Current Assets ÷ Current Liabilities",
      value := currentRatioVal,
      formatted := formatRatio currentRatioVal 2,
      status := bandHigherIsBetter currentRatioVal 2 (3/2) },
    { key := "quickRatio", label := "Quick Ratio",
      formula := "Quick Assets ÷ Current Liabilities",
      value := quickRatioVal,
      formatted := formatRatio quickRatioVal 2,
      status := bandHigherIsBetter quickRatioVal 1 (7/10) },
    { key := "debtToEquity", label := "Debt-to-Equity",
      formula := "Total Liabilities ÷ Total Equity",
      value := debtEquityVal,
      formatted := formatRatio debtEquityVal 2,
      status := bandLowerIsBetter debtEquityVal 1 2 },
    { key := "netMargin", label := "Net Profit Margin",
      formula := "Net Income ÷ Revenue",
      value := netMarginVal,
      formatted := formatPercent netMarginVal 1,
      status := bandHigherIsBetter netMarginVal (3/20) (1/20) },
    { key := "returnOnAssets", label := "Return on Assets",
      formula := "Net Income ÷ Total Assets",
      value := roaVal,
      formatted := formatPercent roaVal 1,
      status := bandHigherIsBetter roaVal (1/10) (3/100) },
    { key := "workingCapital", label := "Working Capital",
      formula := "Current Assets − Current Liabilities",
      value := some workingCapital,
      formatted := formatMoney (some workingCapital) 2,
      status := if workingCapital.gtZero then "good"
                else if workingCapital.ltZero then "bad" else "warning" } ]

/-! ### Derived notions used by the verification -/

/-- The key list of the account-keyed map. -/
def keys (m : List BalRec) : List String := m.map (fun r => r.account.id)

/-- An entry's effective date passes the window test of `computeBalances`
(the negation of its skip condition). -/
def includedEntry (fromMs toMs : Option ℤ) (e : LedgerEntry) : Bool :=
  !(belowFrom fromMs (pickWhen e) || aboveTo toMs (pickWhen e))

/-- An account's initial balance signed by its normal side. -/
def signedInitial (a : Account) : ℚ :=
  if isDebitNormal a then a.initialBalance else -a.initialBalance

/-- A balance record's ending balance signed by its account's normal
side — exactly the debit-minus-credit contribution of its trial-balance
row. -/
def signedEnd (r : BalRec) : ℚ :=
  if isDebitNormal r.account then r.endBal else -r.endBal

/-- Sum of the signed ending balances over the balance map. -/
def sumSignedEnd (m : List BalRec) : ℚ := (m.map signedEnd).sum

/-- A well-formed fixture in the sense of the spec's principal invariant:
account ids are distinct, every transaction references a known account,
and debits offset credits, taking the initial balances and each account's
normal side into account, over the transactions inside the window. -/
def wellFormedFixture (accounts : List Account) (entries : List LedgerEntry)
    (fromMs toMs : Option ℤ) : Prop :=
  (accounts.map Account.id).Nodup ∧
  (∀ e ∈ entries, e.accountId ∈ accounts.map Account.id) ∧
  (accounts.map signedInitial).sum +
    ((entries.filter (includedEntry fromMs toMs)).map
      (fun e => e.debit - e.credit)).sum = 0

instance (accounts : List Account) (entries : List LedgerEntry)
    (fromMs toMs : Option ℤ) :
    Decidable (wellFormedFixture accounts entries fromMs toMs) := by
  unfold wellFormedFixture
  infer_instance

/-! ### Basic lemmas about the account-keyed map -/

theorem updateRec_account (e : LedgerEntry) (r : BalRec) :
    (updateRec e r).account = r.account := rfl

theorem normalizeAccount_id (a : Account) :
    (normalizeAccount a).id = a.id := rfl

theorem isDebitNormal_normalizeAccount (a : Account) :
    isDebitNormal (normalizeAccount a) = isDebitNormal a := rfl

theorem mapGet_isSome_iff (m : List BalRec) (id : String) :
    (mapGet m id).isSome = true ↔ id ∈ keys m := by
  unfold mapGet keys
  rw [List.find?_isSome]
  constructor
  · rintro ⟨x, hx, hp⟩
    exact List.mem_map.mpr ⟨x, hx, by simpa [eq_comm] using (beq_iff_eq.mp hp)⟩
  · intro h
    rcases List.mem_map.mp h with ⟨x, hx, hid⟩
    exact ⟨x, hx, beq_iff_eq.mpr hid⟩

theorem mapGet_eq_none_iff (m : List BalRec) (id : String) :
    mapGet m id = none ↔ id ∉ keys m := by
  rw [← mapGet_isSome_iff]
  cases mapGet m id <;> simp

theorem keys_mapSet_mem (m : List BalRec) (r : BalRec) (x : String) :
    x ∈ keys (mapSet m r) ↔ x ∈ keys m ∨ x = r.account.id := by
  unfold mapSet
  by_cases h : m.any (fun y => y.account.id == r.account.id) = true
  · rcases List.any_eq_true.mp h with ⟨y, hy, hyp⟩
    have hrid : r.account.id ∈ keys m := by
      unfold keys
      exact List.mem_map.mpr ⟨y, hy, beq_iff_eq.mp hyp⟩
    have hkeys : keys (m.map (fun y => if y.account.id == r.account.id then r else y))
        = keys m := by
      unfold keys
      rw [List.map_map]
      apply List.map_congr_left
      intro z _
      by_cases hz : (z.account.id == r.account.id) = true
      · simp only [Function.comp, hz, if_pos]
        exact (beq_iff_eq.mp hz).symm
      · simp only [Function.comp, hz, if_neg]
        rfl
    rw [if_pos h, hkeys]
    constructor
    · exact Or.inl
    · rintro (hx | rfl)
      · exact hx
      · exact hrid
  · rw [if_neg h]
    unfold keys
    simp [List.mem_map]

theorem applyEntry_keys (fromMs toMs : Option ℤ) (m : List BalRec)
    (e : LedgerEntry) : keys (applyEntry fromMs toMs m e) = keys m := by
  unfold applyEntry
  split
  · rfl
  · split
    · unfold keys
      rw [List.map_map]
      apply List.map_congr_left
      intro r _
      by_cases h : (r.account.id == e.accountId) = true <;>
        simp [Function.comp, h, updateRec]
    · rfl

theorem foldl_applyEntry_keys (fromMs toMs : Option ℤ)
    (l : List LedgerEntry) (m : List BalRec) :
    keys (l.foldl (applyEntry fromMs toMs) m) = keys m := by
  induction l generalizing m with
  | nil => rfl
  | cons e l ih => rw [List.foldl_cons, ih, applyEntry_keys]

theorem applyEntry_skip (fromMs toMs : Option ℤ) (m : List BalRec)
    (e : LedgerEntry)
    (h : (belowFrom fromMs (pickWhen e) || aboveTo toMs (pickWhen e)) = true) :
    applyEntry fromMs toMs m e = m := by
  unfold applyEntry
  rw [if_pos h]

theorem applyEntry_unknown (fromMs toMs : Option ℤ) (m : List BalRec)
    (e : LedgerEntry) (h : mapGet m e.accountId = none) :
    applyEntry fromMs toMs m e = m := by
  unfold applyEntry
  split
  · rfl
  · rw [h]
    simp

theorem mem_keys_foldl_mapSet (accs : List Account) (m0 : List BalRec)
    (id : String) :
    id ∈ keys (accs.foldl (fun m a => mapSet m (initRec a)) m0) ↔
      id ∈ keys m0 ∨ id ∈ accs.map Account.id := by
  induction accs generalizing m0 with
  | nil => simp
  | cons a accs ih =>
    rw [List.foldl_cons, ih]
    rw [keys_mapSet_mem]
    simp only [List.map_cons, List.mem_cons]
    constructor
    · rintro ((hl | rfl) | hr)
      · exact Or.inl hl
      · exact Or.inr (Or.inl rfl)
      · exact Or.inr (Or.inr hr)
    · rintro (hl | rfl | hr)
      · exact Or.inl (Or.inl hl)
      · exact Or.inl (Or.inr rfl)
      · exact Or.inr hr

theorem mem_keys_initMap (accounts : List Account) (id : String) :
    id ∈ keys (initMap accounts) ↔ id ∈ accounts.map Account.id := by
  unfold initMap
  rw [mem_keys_foldl_mapSet]
  simp [keys, List.map_map, Function.comp, normalizeAccount_id]

theorem computeBalances_remove_middle (accounts : List Account)
    (pre post : List LedgerEntry) (e : LedgerEntry) (fromMs toMs : Option ℤ)
    (h : applyEntry fromMs toMs
        (pre.foldl (applyEntry fromMs toMs) (initMap accounts)) e =
      pre.foldl (applyEntry fromMs toMs) (initMap accounts)) :
    computeBalances accounts (pre ++ e :: post) fromMs toMs =
      computeBalances accounts (pre ++ post) fromMs toMs := by
  unfold computeBalances
  rw [List.foldl_append, List.foldl_append, List.foldl_cons, h]

/-- C4: a transaction dated strictly outside the `[from, to]` window leaves
the `computeBalances` result unchanged (identical to the result with the
transaction absent); one dated exactly at the `from` or `to` boundary is
processed exactly as if that bound were absent (i.e. it is included); an
absent `from` behaves as `-Infinity` and an absent `to` as `+Infinity`
(no effective date is ever excluded by an absent bound). -/
theorem computeBalances_dateWindow (accounts : List Account)
    (fromMs toMs : Option ℤ) :
    (∀ (pre post : List LedgerEntry) (e : LedgerEntry),
       belowFrom fromMs (pickWhen e) = true ∨ aboveTo toMs (pickWhen e) = true →
       computeBalances accounts (pre ++ e :: post) fromMs toMs =
         computeBalances accounts (pre ++ post) fromMs toMs) ∧
    (∀ (m : List BalRec) (e : LedgerEntry) (fv : ℤ), pickWhen e = fv →
       applyEntry (some fv) toMs m e = applyEntry none toMs m e) ∧
    (∀ (m : List BalRec) (e : LedgerEntry) (tv : ℤ), pickWhen e = tv →
       applyEntry fromMs (some tv) m e = applyEntry fromMs none m e) ∧
    (∀ w : ℤ, belowFrom none w = false ∧ aboveTo none w = false) := by
  refine ⟨?_, ?_, ?_, fun w => ⟨rfl, rfl⟩⟩
  · intro pre post e h
    apply computeBalances_remove_middle
    apply applyEntry_skip
    rcases h with h | h <;> simp [h]
  · intro m e fv h
    have h1 : belowFrom (some fv) (pickWhen e) = false := by
      simp [belowFrom, h]
    have h2 : belowFrom none (pickWhen e) = false := rfl
    unfold applyEntry
    rw [h1, h2]
  · intro m e tv h
    have h1 : aboveTo (some tv) (pickWhen e) = false := by
      simp [aboveTo, h]
    have h2 : aboveTo none (pickWhen e) = false := rfl
    unfold applyEntry
    rw [h1, h2]

theorem computeBalances_dateWindow_witness :
    (computeBalances
        [{ id := "A", name := "", number := "", category := "Asset",
           subcategory := "", normalSide := "", initialBalance := 0,
           type := "" }]
        [{ accountId := "A", debit := 100, credit := 0,
           date := DateField.str (some 99), createdAt := DateField.absent }]
        (some 10) (some 20) =
      computeBalances
        [{ id := "A", name := "", number := "", category := "Asset",
           subcategory := "", normalSide := "", initialBalance := 0,
           type := "" }]
        [] (some 10) (some 20)) ∧
    (applyEntry (some 10) (some 20) []
        { accountId := "A", debit := 100, credit := 0,
          date := DateField.str (some 10), createdAt := DateField.absent } =
      applyEntry none (some 20) []
        { accountId := "A", debit := 100, credit := 0,
          date := DateField.str (some 10), createdAt := DateField.absent }) := by
  constructor
  · exact (computeBalances_dateWindow _ (some 10) (some 20)).1 [] []
      _ (by decide)
  · exact (computeBalances_dateWindow
      ([] : List Account) (some 10) (some 20)).2.1 [] _ 10 (by decide)

/-- C5: a transaction whose `accountId` matches no account is silently
dropped: `computeBalances` (a total function, so it cannot throw) returns
the same map as if the transaction were absent. -/
theorem computeBalances_unknownAccount_dropped (accounts : List Account)
    (pre post : List LedgerEntry) (e : LedgerEntry) (fromMs toMs : Option ℤ)
    (h : e.accountId ∉ accounts.map Account.id) :
    computeBalances accounts (pre ++ e :: post) fromMs toMs =
      computeBalances accounts (pre ++ post) fromMs toMs := by
  apply computeBalances_remove_middle
  apply applyEntry_unknown
  rw [mapGet_eq_none_iff, foldl_applyEntry_keys, mem_keys_initMap]
  exact h

theorem computeBalances_unknownAccount_dropped_witness :
    computeBalances
        [{ id := "A", name := "", number := "", category := "Asset",
           subcategory := "", normalSide := "", initialBalance := 0,
           type := "" }]
        [{ accountId := "GHOST", debit := 7, credit := 0,
           date := DateField.absent, createdAt := DateField.absent }]
        none none =
      computeBalances
        [{ id := "A", name := "", number := "", category := "Asset",
           subcategory := "", normalSide := "", initialBalance := 0,
           type := "" }]
        [] none none :=
  computeBalances_unknownAccount_dropped _ [] [] _ none none (by decide)

/-- C6 counterexample: with `date` a parseable string (`5` ms) and
`createdAt` a Firestore Timestamp (`99` ms), `pickWhen` returns the
`createdAt` time, so the explicit `date` field does not always take
priority over the creation timestamp. -/
theorem pickWhen_counterexample :
    pickWhen { accountId := "A", debit := 0, credit := 0,
               date := DateField.str (some 5),
               createdAt := DateField.ts 99 } = 99 ∧ (99 : ℤ) ≠ 5 := by
  constructor
  · rfl
  · decide

/-- C6 (amended): `pickWhen` resolves the effective date as a
Firestore-Timestamp `date`, else a Firestore-Timestamp `createdAt`, else a
parseable string `date`, else a parseable string `createdAt`, else epoch 0;
the explicit `date` takes priority over `createdAt` only among values of
the same representation. -/
theorem pickWhen_fallback_chain (e : LedgerEntry) :
    (∀ m : ℤ, e.date = .ts m → pickWhen e = m) ∧
    (∀ m : ℤ, (∀ k : ℤ, e.date ≠ .ts k) → e.createdAt = .ts m →
       pickWhen e = m) ∧
    (∀ m : ℤ, (∀ k : ℤ, e.date ≠ .ts k) → (∀ k : ℤ, e.createdAt ≠ .ts k) →
       e.date = .str (some m) → pickWhen e = m) ∧
    (∀ m : ℤ, (∀ k : ℤ, e.date ≠ .ts k) → (∀ k : ℤ, e.createdAt ≠ .ts k) →
       (∀ k : ℤ, e.date ≠ .str (some k)) → e.createdAt = .str (some m) →
       pickWhen e = m) ∧
    ((∀ k : ℤ, e.date ≠ .ts k) → (∀ k : ℤ, e.createdAt ≠ .ts k) →
       (∀ k : ℤ, e.date ≠ .str (some k)) →
       (∀ k : ℤ, e.createdAt ≠ .str (some k)) → pickWhen e = 0) := by
  obtain ⟨aid, d, c, dt, ca⟩ := e
  rcases dt with m | p | _ <;> rcases ca with m' | p' | _ <;>
    try rcases p with m | _ <;>
    try rcases p' with m' | _
  all_goals
    refine ⟨?_, ?_, ?_, ?_, ?_⟩ <;> intros <;> simp_all [pickWhen]

theorem pickWhen_fallback_chain_witness :
    pickWhen { accountId := "A", debit := 0, credit := 0,
               date := DateField.ts 7,
               createdAt := DateField.str (some 3) } = 7 ∧
    pickWhen { accountId := "A", debit := 0, credit := 0,
               date := DateField.str (some 5),
               createdAt := DateField.str (some 3) } = 5 ∧
    pickWhen { accountId := "A", debit := 0, credit := 0,
               date := DateField.absent,
               createdAt := DateField.absent } = 0 := by
  refine ⟨(pickWhen_fallback_chain _).1 7 rfl,
          (pickWhen_fallback_chain _).2.2.1 5 ?_ ?_ rfl,
          (pickWhen_fallback_chain _).2.2.2.2 ?_ ?_ ?_ ?_⟩ <;>
    intro k <;> simp

/-- C7: an in-window transaction on a known account adds its debit and
credit amounts to that account's totals and moves the ending balance by
`+debit − credit` when the account is debit-normal and `+credit − debit`
when credit-normal; records of other accounts are untouched; and the
normal side is the explicit `normalSide` field when it says Debit or
Credit, defaulting to Debit exactly for the Asset and Expense categories
otherwise. -/
theorem applyEntry_known_inWindow_update (fromMs toMs : Option ℤ)
    (m : List BalRec) (e : LedgerEntry) (r : BalRec)
    (hwin : (belowFrom fromMs (pickWhen e) || aboveTo toMs (pickWhen e)) = false)
    (hr : mapGet m e.accountId = some r) :
    (mapGet (applyEntry fromMs toMs m e) e.accountId = some
      { account := r.account,
        debitTotal := r.debitTotal + e.debit,
        creditTotal := r.creditTotal + e.credit,
        beginBal := r.beginBal,
        endBal := if isDebitNormal r.account then r.endBal + e.debit - e.credit
                  else r.endBal + e.credit - e.debit }) ∧
    (∀ oid : String, oid ≠ e.accountId →
      mapGet (applyEntry fromMs toMs m e) oid = mapGet m oid) ∧
    (jsToLower r.account.normalSide = "debit" → isDebitNormal r.account = true) ∧
    (jsToLower r.account.normalSide = "credit" → isDebitNormal r.account = false) ∧
    (jsToLower r.account.normalSide ≠ "debit" →
     jsToLower r.account.normalSide ≠ "credit" →
      (isDebitNormal r.account = true ↔
        (jsToLower r.account.category = "asset" ∨
         jsToLower r.account.category = "expense"))) := by
  have happ : applyEntry fromMs toMs m e =
      m.map (fun x => if x.account.id == e.accountId then updateRec e x else x) := by
    unfold applyEntry
    rw [hwin]
    simp only [Bool.false_eq_true, if_false, hr, Option.isSome_some, if_pos]
  refine ⟨?_, ?_, ?_, ?_, ?_⟩
  · rw [happ]
    unfold mapGet at hr ⊢
    rw [List.find?_map]
    have hcomp : ((fun x : BalRec => x.account.id == e.accountId) ∘
        (fun x => if x.account.id == e.accountId then updateRec e x else x)) =
        (fun x : BalRec => x.account.id == e.accountId) := by
      funext x
      by_cases hx : (x.account.id == e.accountId) = true <;>
        simp [Function.comp, hx, updateRec]
    rw [hcomp, hr]
    have hpr : (r.account.id == e.accountId) = true := by
      simpa using List.find?_some hr
    rw [Option.map_some', if_pos hpr]
    rfl
  · intro oid hoid
    rw [happ]
    unfold mapGet
    rw [List.find?_map]
    have hcomp : ((fun x : BalRec => x.account.id == oid) ∘
        (fun x => if x.account.id == e.accountId then updateRec e x else x)) =
        (fun x : BalRec => x.account.id == oid) := by
      funext x
      by_cases hx : (x.account.id == e.accountId) = true <;>
        simp [Function.comp, hx, updateRec]
    rw [hcomp]
    cases hfind : m.find? (fun x => x.account.id == oid) with
    | none => rfl
    | some y =>
      have hy : (y.account.id == oid) = true := by
        simpa using List.find?_some hfind
      have hyne : (y.account.id == e.accountId) = false := by
        rw [beq_iff_eq] at hy
        rw [beq_eq_false_iff_ne, hy]
        exact hoid
      rw [Option.map_some', if_neg (by rw [hyne]; exact Bool.false_ne_true)]
  · intro h
    unfold isDebitNormal
    rw [if_pos h]
  · intro h
    unfold isDebitNormal
    have hne : jsToLower r.account.normalSide ≠ "debit" := by
      rw [h]
      decide
    rw [if_neg hne, if_pos h]
  · intro h1 h2
    unfold isDebitNormal
    rw [if_neg h1, if_neg h2]
    simp

theorem applyEntry_known_inWindow_update_witness :
    (mapGet [BalRec.mk
        (Account.mk "A" "" "" "Asset" "" "" 0 "asset") 0 0 0 0] "A" =
      some (BalRec.mk (Account.mk "A" "" "" "Asset" "" "" 0 "asset") 0 0 0 0)) ∧
    mapGet (applyEntry none none
        [BalRec.mk (Account.mk "A" "" "" "Asset" "" "" 0 "asset") 0 0 0 0]
        (LedgerEntry.mk "A" 100 30 DateField.absent DateField.absent)) "A" =
      some (BalRec.mk
        (Account.mk "A" "" "" "Asset" "" "" 0 "asset") 100 30 0 70) := by
  constructor
  · decide
  · have h := (applyEntry_known_inWindow_update none none
      [BalRec.mk (Account.mk "A" "" "" "Asset" "" "" 0 "asset") 0 0 0 0]
      (LedgerEntry.mk "A" 100 30 DateField.absent DateField.absent)
      (BalRec.mk (Account.mk "A" "" "" "Asset" "" "" 0 "asset") 0 0 0 0)
      (by decide) (by decide)).1
    rw [h]
    have hd : isDebitNormal (Account.mk "A" "" "" "Asset" "" "" 0 "asset") =
        true := by decide
    simp only [hd, if_true, Option.some.injEq, BalRec.mk.injEq]
    norm_num

/-! ### Statement builder and trial balance -/

theorem bsFold_equity (l : List BalRec) (acc : BSAcc) :
    (l.foldl bsStep acc).equity =
      acc.equity +
        ((l.filter (fun r => jsToLower r.account.category == "equity")).map
          (fun r => r.endBal)).sum := by
  induction l generalizing acc with
  | nil => simp
  | cons r l ih =>
    rw [List.foldl_cons, ih]
    by_cases h3 : jsToLower r.account.category = "equity"
    · have hne1 : jsToLower r.account.category ≠ "asset" := by
        rw [h3]; decide
      have hne2 : jsToLower r.account.category ≠ "liability" := by
        rw [h3]; decide
      have hstep : (bsStep acc r).equity = acc.equity + r.endBal := by
        simp only [bsStep]
        rw [if_neg hne1, if_neg hne2, if_pos h3]
      rw [hstep, List.filter_cons_of_pos (by simp [h3]), List.map_cons,
        List.sum_cons]
      ring
    · have hstep : (bsStep acc r).equity = acc.equity := by
        simp only [bsStep]
        by_cases h1 : jsToLower r.account.category = "asset"
        · rw [if_pos h1]
        · rw [if_neg h1]
          by_cases h2 : jsToLower r.account.category = "liability"
          · rw [if_pos h2]
          · rw [if_neg h2, if_neg h3]
      rw [hstep, List.filter_cons_of_neg (by simp [h3])]

/-- C8: `balanceSheet` returns `totalEquity` equal to the sum of the ending
balances of Equity-category accounts plus retained earnings, where retained
earnings is `retainedEarningsOpening + periodNetIncome`. -/
theorem balanceSheet_totalEquity_spec (accMap : List BalRec)
    (retainedEarningsOpening periodNetIncome : ℚ) :
    (balanceSheet accMap retainedEarningsOpening periodNetIncome).totalEquity =
      ((accMap.filter (fun r => jsToLower r.account.category == "equity")).map
        (fun r => r.endBal)).sum +
      (retainedEarningsOpening + periodNetIncome) := by
  show (accMap.foldl bsStep
      { currentAssets := 0, inventory := 0, currentLiabilities := 0,
        totalAssets := 0, totalLiabilities := 0, equity := 0 }).equity +
      (retainedEarningsOpening + periodNetIncome) = _
  rw [bsFold_equity]
  ring

theorem bsStep_other_eq (acc : BSAcc) (r : BalRec)
    (h1 : jsToLower r.account.category ≠ "asset")
    (h2 : jsToLower r.account.category ≠ "liability")
    (h3 : jsToLower r.account.category ≠ "equity") :
    bsStep acc r = acc := by
  simp only [bsStep]
  rw [if_neg h1, if_neg h2, if_neg h3]

/-- C10: adding or removing a balance record whose account category is not
Asset, Liability or Equity (for example a Revenue or Expense account)
leaves all six outputs of `balanceSheet` unchanged. -/
theorem balanceSheet_ignores_nonBS_categories (pre post : List BalRec)
    (r : BalRec) (retainedEarningsOpening periodNetIncome : ℚ)
    (h1 : jsToLower r.account.category ≠ "asset")
    (h2 : jsToLower r.account.category ≠ "liability")
    (h3 : jsToLower r.account.category ≠ "equity") :
    balanceSheet (pre ++ r :: post) retainedEarningsOpening periodNetIncome =
      balanceSheet (pre ++ post) retainedEarningsOpening periodNetIncome := by
  unfold balanceSheet
  rw [List.foldl_append, List.foldl_append, List.foldl_cons,
    bsStep_other_eq _ _ h1 h2 h3]

theorem balanceSheet_ignores_nonBS_categories_witness :
    balanceSheet
        ([] ++ BalRec.mk (Account.mk "R" "" "" "Revenue" "" "" 0 "") 0 40 0 40
          :: []) 0 0 =
      balanceSheet ([] ++ []) 0 0 :=
  balanceSheet_ignores_nonBS_categories [] []
    (BalRec.mk (Account.mk "R" "" "" "Revenue" "" "" 0 "") 0 40 0 40) 0 0
    (by decide) (by decide) (by decide)

theorem foldl_add_eq_sum {α : Type} (f : α → ℚ) (l : List α) (s : ℚ) :
    l.foldl (fun a x => a + f x) s = s + (l.map f).sum := by
  induction l generalizing s with
  | nil => simp
  | cons x l ih =>
    rw [List.foldl_cons, ih, List.map_cons, List.sum_cons]
    ring

theorem max_sub_neg_max (v : ℚ) : max v 0 - max (-v) 0 = v := by
  rcases le_total v 0 with h | h
  · rw [max_eq_right h, max_eq_left (neg_nonneg.mpr h)]
    ring
  · rw [max_eq_left h, max_eq_right (neg_nonpos.mpr h)]
    ring

theorem tbRow_spec (r : BalRec) :
    0 ≤ (tbRow r).debit ∧ 0 ≤ (tbRow r).credit ∧
    ((tbRow r).debit = 0 ∨ (tbRow r).credit = 0) ∧
    (tbRow r).debit - (tbRow r).credit =
      (if isDebitNormal r.account then r.endBal else -r.endBal) := by
  simp only [tbRow]
  by_cases hd : isDebitNormal r.account
  · simp only [hd, if_true]
    refine ⟨le_max_right _ _, le_max_right _ _, ?_, max_sub_neg_max _⟩
    rcases le_total r.endBal 0 with h | h
    · exact Or.inl (max_eq_right h)
    · exact Or.inr (max_eq_right (neg_nonpos.mpr h))
  · simp only [hd, if_false, Bool.false_eq_true]
    refine ⟨le_max_right _ _, le_max_right _ _, ?_, ?_⟩
    · rcases le_total r.endBal 0 with h | h
      · exact Or.inr (max_eq_right h)
      · exact Or.inl (max_eq_right (neg_nonpos.mpr h))
    · have := max_sub_neg_max (-r.endBal)
      rw [neg_neg] at this
      exact this

/-- C9: every trial-balance row has non-negative debit and credit entries,
at most one of them nonzero, and `debit − credit` equal to the account's
ending balance for a debit-normal account and to its negation otherwise;
the rows are exactly one per balance record, and the returned grand totals
are the sums of the rows' debit and credit columns. -/
theorem trialBalanceRows_invariants (accMap : List BalRec) :
    (∀ row ∈ (trialBalanceRows accMap).rows,
       0 ≤ row.debit ∧ 0 ≤ row.credit ∧ (row.debit = 0 ∨ row.credit = 0)) ∧
    ((trialBalanceRows accMap).rows = accMap.map tbRow) ∧
    (∀ r ∈ accMap,
       (tbRow r).debit - (tbRow r).credit =
         (if isDebitNormal r.account then r.endBal else -r.endBal)) ∧
    ((trialBalanceRows accMap).totalD =
      ((trialBalanceRows accMap).rows.map (fun row => row.debit)).sum) ∧
    ((trialBalanceRows accMap).totalC =
      ((trialBalanceRows accMap).rows.map (fun row => row.credit)).sum) := by
  refine ⟨?_, rfl, ?_, ?_, ?_⟩
  · intro row hrow
    rcases List.mem_map.mp hrow with ⟨r, _, rfl⟩
    exact ⟨(tbRow_spec r).1, (tbRow_spec r).2.1, (tbRow_spec r).2.2.1⟩
  · intro r _
    exact (tbRow_spec r).2.2.2
  · show (accMap.map tbRow).foldl (fun s row => s + row.debit) 0 = _
    rw [foldl_add_eq_sum (fun row : TBRow => row.debit)]
    simp [trialBalanceRows]
  · show (accMap.map tbRow).foldl (fun s row => s + row.credit) 0 = _
    rw [foldl_add_eq_sum (fun row : TBRow => row.credit)]
    simp [trialBalanceRows]

theorem trialBalanceRows_invariants_witness :
    (0:ℚ) ≤ (tbRow (BalRec.mk (Account.mk "A" "" "" "Asset" "" "" 0 "") 5 2 0 3)).debit ∧
    (tbRow (BalRec.mk (Account.mk "A" "" "" "Asset" "" "" 0 "") 5 2 0 3)).debit -
      (tbRow (BalRec.mk (Account.mk "A" "" "" "Asset" "" "" 0 "") 5 2 0 3)).credit =
      (if isDebitNormal (Account.mk "A" "" "" "Asset" "" "" 0 "") then (3:ℚ) else -3) := by
  constructor
  · exact ((trialBalanceRows_invariants
      [BalRec.mk (Account.mk "A" "" "" "Asset" "" "" 0 "") 5 2 0 3]).1 _
      (by simp [trialBalanceRows])).1
  · exact (trialBalanceRows_invariants
      [BalRec.mk (Account.mk "A" "" "" "Asset" "" "" 0 "") 5 2 0 3]).2.2.1 _
      (by simp)

/-! ### Order-independence of the balance fold -/

theorem bool_eq_false {b : Bool} (h : ¬ b = true) : b = false := by
  cases b
  · rfl
  · exact absurd rfl h

theorem keys_map_update (e : LedgerEntry) (m : List BalRec) :
    keys (m.map (fun r => if r.account.id == e.accountId then updateRec e r
      else r)) = keys m := by
  unfold keys
  rw [List.map_map]
  apply List.map_congr_left
  intro r _
  by_cases h : (r.account.id == e.accountId) = true <;>
    simp [Function.comp, h, updateRec]

theorem applyEntry_present (fromMs toMs : Option ℤ) (m : List BalRec)
    (e : LedgerEntry)
    (hs : (belowFrom fromMs (pickWhen e) || aboveTo toMs (pickWhen e)) = false)
    (hp : (mapGet m e.accountId).isSome = true) :
    applyEntry fromMs toMs m e =
      m.map (fun r => if r.account.id == e.accountId then updateRec e r
        else r) := by
  unfold applyEntry
  rw [hs, hp]
  simp

theorem updateRec_comm (e1 e2 : LedgerEntry) (r : BalRec) :
    updateRec e2 (updateRec e1 r) = updateRec e1 (updateRec e2 r) := by
  by_cases hd : isDebitNormal r.account
  · simp only [updateRec, hd, if_true, BalRec.mk.injEq]
    refine ⟨trivial, by ring, by ring, trivial, by ring⟩
  · simp only [updateRec, hd, if_false, Bool.false_eq_true, BalRec.mk.injEq]
    refine ⟨trivial, by ring, by ring, trivial, by ring⟩

theorem applyEntry_comm (fromMs toMs : Option ℤ) (e1 e2 : LedgerEntry)
    (m : List BalRec) :
    applyEntry fromMs toMs (applyEntry fromMs toMs m e1) e2 =
      applyEntry fromMs toMs (applyEntry fromMs toMs m e2) e1 := by
  by_cases s1 : (belowFrom fromMs (pickWhen e1) || aboveTo toMs (pickWhen e1)) = true
  · rw [applyEntry_skip _ _ m _ s1, applyEntry_skip _ _ (applyEntry fromMs toMs m e2) _ s1]
  · by_cases s2 : (belowFrom fromMs (pickWhen e2) || aboveTo toMs (pickWhen e2)) = true
    · rw [applyEntry_skip _ _ m _ s2, applyEntry_skip _ _ (applyEntry fromMs toMs m e1) _ s2]
    · have s1' := bool_eq_false s1
      have s2' := bool_eq_false s2
      by_cases p1 : (mapGet m e1.accountId).isSome = true
      · by_cases p2 : (mapGet m e2.accountId).isSome = true
        · have h1 := applyEntry_present fromMs toMs m e1 s1' p1
          have h2 := applyEntry_present fromMs toMs m e2 s2' p2
          rw [h1, h2]
          have p2' : (mapGet (m.map (fun r =>
              if r.account.id == e1.accountId then updateRec e1 r else r))
              e2.accountId).isSome = true := by
            rw [mapGet_isSome_iff, keys_map_update, ← mapGet_isSome_iff]
            exact p2
          have p1' : (mapGet (m.map (fun r =>
              if r.account.id == e2.accountId then updateRec e2 r else r))
              e1.accountId).isSome = true := by
            rw [mapGet_isSome_iff, keys_map_update, ← mapGet_isSome_iff]
            exact p1
          rw [applyEntry_present fromMs toMs _ e2 s2' p2',
            applyEntry_present fromMs toMs _ e1 s1' p1']
          rw [List.map_map, List.map_map]
          apply List.map_congr_left
          intro r _
          by_cases q1 : (r.account.id == e1.accountId) = true
          · by_cases q2 : (r.account.id == e2.accountId) = true
            · simp only [Function.comp, q1, q2, if_pos, updateRec_account]
              exact updateRec_comm e1 e2 r
            · simp only [Function.comp, q1, q2, if_pos, updateRec_account,
                Bool.false_eq_true, if_false]
          · by_cases q2 : (r.account.id == e2.accountId) = true
            · simp only [Function.comp, q1, q2, if_pos, updateRec_account,
                Bool.false_eq_true, if_false]
            · simp only [Function.comp, q1, q2, Bool.false_eq_true, if_false]
        · have hn2 : mapGet m e2.accountId = none := by
            cases h : mapGet m e2.accountId
            · rfl
            · rw [h] at p2
              simp at p2
          have hn2' : mapGet (applyEntry fromMs toMs m e1) e2.accountId
              = none := by
            rw [mapGet_eq_none_iff, applyEntry_keys, ← mapGet_eq_none_iff]
            exact hn2
          rw [applyEntry_unknown _ _ _ _ hn2', applyEntry_unknown _ _ _ _ hn2]
      · have hn1 : mapGet m e1.accountId = none := by
          cases h : mapGet m e1.accountId
          · rfl
          · rw [h] at p1
            simp at p1
        have hn1' : mapGet (applyEntry fromMs toMs m e2) e1.accountId
            = none := by
          rw [mapGet_eq_none_iff, applyEntry_keys, ← mapGet_eq_none_iff]
          exact hn1
        rw [applyEntry_unknown _ _ _ _ hn1, applyEntry_unknown _ _ _ _ hn1']

/-- C2: `computeBalances` is invariant under permutation of the transaction
list: every permutation of the entries produces the same balance map (the
same debit totals, credit totals, beginning and ending balances for every
account). -/
theorem computeBalances_perm_invariant (accounts : List Account)
    (l1 l2 : List LedgerEntry) (fromMs toMs : Option ℤ) (h : l1.Perm l2) :
    computeBalances accounts l1 fromMs toMs =
      computeBalances accounts l2 fromMs toMs := by
  unfold computeBalances
  exact h.foldl_eq' (fun x _ y _ z => applyEntry_comm fromMs toMs x y z) _

theorem computeBalances_perm_invariant_witness :
    computeBalances
        [Account.mk "A" "" "" "Asset" "" "" 0 ""]
        [LedgerEntry.mk "A" 0 25 DateField.absent DateField.absent,
         LedgerEntry.mk "A" 10 0 DateField.absent DateField.absent]
        none none =
      computeBalances
        [Account.mk "A" "" "" "Asset" "" "" 0 ""]
        [LedgerEntry.mk "A" 10 0 DateField.absent DateField.absent,
         LedgerEntry.mk "A" 0 25 DateField.absent DateField.absent]
        none none :=
  computeBalances_perm_invariant _ _ _ none none
    (List.Perm.swap (LedgerEntry.mk "A" 10 0 DateField.absent DateField.absent)
      (LedgerEntry.mk "A" 0 25 DateField.absent DateField.absent) [])

/-! ### Ratio engine fail-safe behaviour -/

theorem safeDivide_zero_den (n : JSNum) : safeDivide n (JSNum.fin 0) = none := by
  cases n <;> simp [safeDivide]

theorem safeDivide_none_of_guard (n d : JSNum)
    (h : n.isFinite = false ∨ d.isFinite = false ∨ d = JSNum.fin 0) :
    safeDivide n d = none := by
  rcases h with h | h | h <;> cases n <;> cases d <;>
    simp_all [safeDivide, JSNum.isFinite]

/-- C3: `computeRatios` is total (never throws) and fail-safe: every
quotient ratio whose denominator is zero or whose operands are non-finite
carries `value = null`, and every null-valued row is formatted "N/A" with
status "warning"; in particular with `currentLiabilities = 0` the Current
Ratio and Quick Ratio rows have `value` null, formatted "N/A" and status
"warning". -/
theorem computeRatios_failSafe (raw : RatioInput) :
    ((computeRatios raw).length = 6) ∧
    (∀ row ∈ computeRatios raw, row.value = none →
       row.formatted = "N/A" ∧ row.status = "warning") ∧
    (∀ n d : JSNum,
       n.isFinite = false ∨ d.isFinite = false ∨ d = JSNum.fin 0 →
       safeDivide n d = none) ∧
    ((computeRatios raw).map RatioResult.value =
      [(safeDivide (numOrZero raw.currentAssets)
          (numOrZero raw.currentLiabilities)).map JSNum.fin,
       (safeDivide (quickAssetsOf raw)
          (numOrZero raw.currentLiabilities)).map JSNum.fin,
       (safeDivide (numOrZero raw.totalLiabilities)
          (numOrZero raw.totalEquity)).map JSNum.fin,
       (safeDivide (numOrZero raw.netIncome)
          (numOrZero raw.revenue)).map JSNum.fin,
       (safeDivide (numOrZero raw.netIncome)
          (numOrZero raw.totalAssets)).map JSNum.fin,
       some ((numOrZero raw.currentAssets).sub
          (numOrZero raw.currentLiabilities))]) ∧
    (numOrZero raw.currentLiabilities = JSNum.fin 0 →
      ∃ r0 r1, (computeRatios raw).get? 0 = some r0 ∧
        (computeRatios raw).get? 1 = some r1 ∧
        r0.key = "currentRatio" ∧ r0.value = none ∧
        r0.formatted = "N/A" ∧ r0.status = "warning" ∧
        r1.key = "quickRatio" ∧ r1.value = none ∧
        r1.formatted = "N/A" ∧ r1.status = "warning") := by
  refine ⟨rfl, ?_, safeDivide_none_of_guard, rfl, ?_⟩
  · intro row hrow hval
    simp only [computeRatios, List.mem_cons, List.not_mem_nil, or_false]
      at hrow
    rcases hrow with rfl | rfl | rfl | rfl | rfl | rfl <;>
      simp only [RatioResult.value] at hval <;>
      first
        | (refine ⟨?_, ?_⟩ <;> simp only [RatioResult.formatted,
            RatioResult.status, hval] <;> rfl)
        | simp at hval
  · intro h
    refine ⟨_, _, rfl, rfl, rfl, ?_, ?_, ?_, rfl, ?_, ?_, ?_⟩ <;>
      simp only [RatioResult.value, RatioResult.formatted,
        RatioResult.status, h, safeDivide_zero_den, Option.map_none'] <;>
      rfl

theorem computeRatios_failSafe_witness :
    ∃ r0 r1,
      (computeRatios
        (RatioInput.mk (some (JSNum.fin 200)) (some (JSNum.fin 50))
          (some (JSNum.fin 0)) (some (JSNum.fin 100)) (some (JSNum.fin 100))
          (some (JSNum.fin 200)) (some (JSNum.fin 20)) (some (JSNum.fin 100))
          none)).get? 0 = some r0 ∧
      (computeRatios
        (RatioInput.mk (some (JSNum.fin 200)) (some (JSNum.fin 50))
          (some (JSNum.fin 0)) (some (JSNum.fin 100)) (some (JSNum.fin 100))
          (some (JSNum.fin 200)) (some (JSNum.fin 20)) (some (JSNum.fin 100))
          none)).get? 1 = some r1 ∧
      r0.key = "currentRatio" ∧ r0.value = none ∧
      r0.formatted = "N/A" ∧ r0.status = "warning" ∧
      r1.key = "quickRatio" ∧ r1.value = none ∧
      r1.formatted = "N/A" ∧ r1.status = "warning" :=
  (computeRatios_failSafe
    (RatioInput.mk (some (JSNum.fin 200)) (some (JSNum.fin 50))
      (some (JSNum.fin 0)) (some (JSNum.fin 100)) (some (JSNum.fin 100))
      (some (JSNum.fin 200)) (some (JSNum.fin 20)) (some (JSNum.fin 100))
      none)).2.2.2.2 rfl

/-! ### The trial-balance identity -/

theorem sum_map_sub {α : Type} (f g : α → ℚ) (l : List α) :
    (l.map (fun x => f x - g x)).sum = (l.map f).sum - (l.map g).sum := by
  induction l with
  | nil => simp
  | cons x l ih =>
    simp only [List.map_cons, List.sum_cons, ih]
    ring

theorem signedEnd_updateRec (e : LedgerEntry) (r : BalRec) :
    signedEnd (updateRec e r) = signedEnd r + (e.debit - e.credit) := by
  unfold signedEnd updateRec
  by_cases hd : isDebitNormal r.account <;> simp [hd] <;> ring

theorem sum_map_update_single (e : LedgerEntry) (m : List BalRec)
    (hnodup : (keys m).Nodup) (hmem : e.accountId ∈ keys m) :
    ((m.map (fun r => if r.account.id == e.accountId then updateRec e r
        else r)).map signedEnd).sum =
      (m.map signedEnd).sum + (e.debit - e.credit) := by
  induction m with
  | nil => simp [keys] at hmem
  | cons r m ih =>
    have hkeys : keys (r :: m) = r.account.id :: keys m := rfl
    rw [hkeys] at hnodup hmem
    have hnot : r.account.id ∉ keys m := (List.nodup_cons.mp hnodup).1
    have hnd : (keys m).Nodup := (List.nodup_cons.mp hnodup).2
    rcases List.mem_cons.mp hmem with heq | hmem'
    · have hbeq : (r.account.id == e.accountId) = true :=
        beq_iff_eq.mpr heq.symm
      have htail : m.map (fun x => if x.account.id == e.accountId then
          updateRec e x else x) = m := by
        have : ∀ x ∈ m, (if x.account.id == e.accountId then updateRec e x
            else x) = x := by
          intro x hx
          have hxid : x.account.id ∈ keys m := List.mem_map.mpr ⟨x, hx, rfl⟩
          have hne : x.account.id ≠ e.accountId := by
            intro hxe
            rw [hxe] at hxid
            rw [heq] at hxid
            exact hnot hxid
          rw [if_neg (by rw [beq_eq_false_iff_ne.mpr hne]; exact
            Bool.false_ne_true)]
        calc m.map (fun x => if x.account.id == e.accountId then
              updateRec e x else x) = m.map id := List.map_congr_left
                (fun x hx => by rw [this x hx]; rfl)
          _ = m := List.map_id m
      simp only [List.map_cons, hbeq, if_pos, List.sum_cons, htail,
        signedEnd_updateRec]
      ring
    · have hne : r.account.id ≠ e.accountId := by
        intro hre
        rw [← hre] at hmem'
        exact hnot hmem'
      have hbeq : (r.account.id == e.accountId) = false :=
        beq_eq_false_iff_ne.mpr hne
      simp only [List.map_cons, hbeq, Bool.false_eq_true, if_false,
        List.sum_cons, ih hnd hmem']
      ring

theorem sumSignedEnd_applyEntry (fromMs toMs : Option ℤ) (m : List BalRec)
    (e : LedgerEntry) (hnodup : (keys m).Nodup)
    (hmem : e.accountId ∈ keys m)
    (hwin : (belowFrom fromMs (pickWhen e) || aboveTo toMs (pickWhen e))
      = false) :
    sumSignedEnd (applyEntry fromMs toMs m e) =
      sumSignedEnd m + (e.debit - e.credit) := by
  rw [applyEntry_present fromMs toMs m e hwin
    ((mapGet_isSome_iff m e.accountId).mpr hmem)]
  exact sum_map_update_single e m hnodup hmem

theorem sumSignedEnd_foldl (fromMs toMs : Option ℤ) :
    ∀ (l : List LedgerEntry) (m : List BalRec), (keys m).Nodup →
      (∀ e ∈ l, e.accountId ∈ keys m) →
      sumSignedEnd (l.foldl (applyEntry fromMs toMs) m) =
        sumSignedEnd m + ((l.filter (includedEntry fromMs toMs)).map
          (fun e => e.debit - e.credit)).sum := by
  intro l
  induction l with
  | nil => intro m _ _; simp
  | cons e l ih =>
    intro m hnodup hknown
    rw [List.foldl_cons]
    by_cases hw : includedEntry fromMs toMs e = true
    · have hskip : (belowFrom fromMs (pickWhen e) ||
          aboveTo toMs (pickWhen e)) = false := by
        simpa [includedEntry] using hw
      have hstep := sumSignedEnd_applyEntry fromMs toMs m e hnodup
        (hknown e (List.mem_cons_self e l)) hskip
      have hkeys := applyEntry_keys fromMs toMs m e
      rw [ih (applyEntry fromMs toMs m e) (by rw [hkeys]; exact hnodup)
        (fun x hx => by rw [hkeys]; exact hknown x (List.mem_cons_of_mem e hx)),
        hstep, List.filter_cons_of_pos hw, List.map_cons, List.sum_cons]
      ring
    · have hskip : (belowFrom fromMs (pickWhen e) ||
          aboveTo toMs (pickWhen e)) = true := by
        cases hval : (belowFrom fromMs (pickWhen e) ||
            aboveTo toMs (pickWhen e)) with
        | false => exact absurd (by unfold includedEntry; rw [hval]; rfl) hw
        | true => rfl
      rw [applyEntry_skip fromMs toMs m e hskip,
        List.filter_cons_of_neg hw,
        ih m hnodup (fun x hx => hknown x (List.mem_cons_of_mem e hx))]

theorem keys_append_single (m : List BalRec) (r : BalRec) :
    keys (m ++ [r]) = keys m ++ [r.account.id] := by
  unfold keys
  rw [List.map_append]
  rfl

theorem foldl_mapSet_append : ∀ (accs : List Account) (m0 : List BalRec),
    (accs.map Account.id).Nodup → (∀ a ∈ accs, a.id ∉ keys m0) →
    accs.foldl (fun m a => mapSet m (initRec a)) m0 = m0 ++ accs.map initRec := by
  intro accs
  induction accs with
  | nil => intro m0 _ _; simp
  | cons a accs ih =>
    intro m0 hnodup hdis
    have hnota : a.id ∉ keys m0 := hdis a (List.mem_cons_self a accs)
    have hany : m0.any (fun x => x.account.id == (initRec a).account.id)
        = false := by
      apply bool_eq_false
      intro h
      rcases List.any_eq_true.mp h with ⟨x, hx, hxp⟩
      have hxa : x.account.id = a.id := beq_iff_eq.mp hxp
      exact hnota (hxa ▸ List.mem_map.mpr ⟨x, hx, rfl⟩)
    have hset : mapSet m0 (initRec a) = m0 ++ [initRec a] := by
      unfold mapSet
      rw [hany]
      simp
    rw [List.foldl_cons, hset]
    have hnd1 : (accs.map Account.id).Nodup := (List.nodup_cons.mp hnodup).2
    have hna : a.id ∉ accs.map Account.id := (List.nodup_cons.mp hnodup).1
    rw [ih (m0 ++ [initRec a]) hnd1 ?_]
    · rw [List.append_assoc]
      rfl
    · intro x hx
      rw [keys_append_single]
      intro hmem
      rcases List.mem_append.mp hmem with h | h
      · exact hdis x (List.mem_cons_of_mem a hx) h
      · have heq : x.id = a.id := List.mem_singleton.mp h
        exact hna (List.mem_map.mpr ⟨x, hx, heq⟩)

theorem map_id_normalized (accounts : List Account) :
    (accounts.map normalizeAccount).map Account.id =
      accounts.map Account.id := by
  rw [List.map_map]
  exact List.map_congr_left (fun a _ => rfl)

theorem initMap_eq (accounts : List Account)
    (h : (accounts.map Account.id).Nodup) :
    initMap accounts = (accounts.map normalizeAccount).map initRec := by
  unfold initMap
  rw [foldl_mapSet_append (accounts.map normalizeAccount) []
    (by rw [map_id_normalized]; exact h) (by intro a _; simp [keys])]
  rfl

theorem keys_initMap_eq (accounts : List Account)
    (h : (accounts.map Account.id).Nodup) :
    keys (initMap accounts) = accounts.map Account.id := by
  rw [initMap_eq accounts h]
  unfold keys
  rw [List.map_map, List.map_map]
  exact List.map_congr_left (fun a _ => rfl)

theorem sumSignedEnd_initMap (accounts : List Account)
    (h : (accounts.map Account.id).Nodup) :
    sumSignedEnd (initMap accounts) = (accounts.map signedInitial).sum := by
  rw [initMap_eq accounts h]
  unfold sumSignedEnd
  rw [List.map_map, List.map_map]
  apply congrArg
  exact List.map_congr_left (fun a _ => rfl)

theorem trialBalance_diff (m : List BalRec) :
    (trialBalanceRows m).totalD - (trialBalanceRows m).totalC =
      sumSignedEnd m := by
  have hD : (trialBalanceRows m).totalD =
      ((m.map tbRow).map (fun row : TBRow => row.debit)).sum := by
    show (m.map tbRow).foldl (fun s row => s + row.debit) 0 = _
    rw [foldl_add_eq_sum (fun row : TBRow => row.debit)]
    simp
  have hC : (trialBalanceRows m).totalC =
      ((m.map tbRow).map (fun row : TBRow => row.credit)).sum := by
    show (m.map tbRow).foldl (fun s row => s + row.credit) 0 = _
    rw [foldl_add_eq_sum (fun row : TBRow => row.credit)]
    simp
  rw [hD, hC, ← sum_map_sub]
  unfold sumSignedEnd
  rw [List.map_map]
  apply congrArg
  apply List.map_congr_left
  intro r _
  have := (tbRow_spec r).2.2.2
  simpa [signedEnd] using this

/-- C1: for every well-formed fixture (distinct account ids, every
transaction referencing a known account, and debits offsetting credits
taking the initial balances and each account's normal side into account),
the trial balance built from the `computeBalances` output has its grand
debit total equal to its grand credit total. -/
theorem trialBalance_totalDebit_eq_totalCredit (accounts : List Account)
    (entries : List LedgerEntry) (fromMs toMs : Option ℤ)
    (hwf : wellFormedFixture accounts entries fromMs toMs) :
    (trialBalanceRows (computeBalances accounts entries fromMs toMs)).totalD =
      (trialBalanceRows (computeBalances accounts entries fromMs toMs)).totalC
    := by
  obtain ⟨hnodup, hknown, hsum⟩ := hwf
  have hkeys := keys_initMap_eq accounts hnodup
  have h1 : sumSignedEnd (computeBalances accounts entries fromMs toMs) =
      sumSignedEnd (initMap accounts) +
        ((entries.filter (includedEntry fromMs toMs)).map
          (fun e => e.debit - e.credit)).sum := by
    unfold computeBalances
    exact sumSignedEnd_foldl fromMs toMs entries (initMap accounts)
      (by rw [hkeys]; exact hnodup)
      (fun e he => by rw [hkeys]; exact hknown e he)
  rw [sumSignedEnd_initMap accounts hnodup] at h1
  have h2 : sumSignedEnd (computeBalances accounts entries fromMs toMs)
      = 0 := by
    rw [h1]
    exact hsum
  have h3 := trialBalance_diff (computeBalances accounts entries fromMs toMs)
  rw [h2] at h3
  linarith

theorem trialBalance_totalDebit_eq_totalCredit_witness :
    wellFormedFixture
      [Account.mk "A" "" "" "Asset" "" "" 0 "",
       Account.mk "L" "" "" "Liability" "" "" 0 ""]
      [LedgerEntry.mk "A" 100 0 DateField.absent DateField.absent,
       LedgerEntry.mk "L" 0 100 DateField.absent DateField.absent]
      none none ∧
    (trialBalanceRows (computeBalances
      [Account.mk "A" "" "" "Asset" "" "" 0 "",
       Account.mk "L" "" "" "Liability" "" "" 0 ""]
      [LedgerEntry.mk "A" 100 0 DateField.absent DateField.absent,
       LedgerEntry.mk "L" 0 100 DateField.absent DateField.absent]
      none none)).totalD =
    (trialBalanceRows (computeBalances
      [Account.mk "A" "" "" "Asset" "" "" 0 "",
       Account.mk "L" "" "" "Liability" "" "" 0 ""]
      [LedgerEntry.mk "A" 100 0 DateField.absent DateField.absent,
       LedgerEntry.mk "L" 0 100 DateField.absent DateField.absent]
      none none)).totalC := by
  have hwf : wellFormedFixture
      [Account.mk "A" "" "" "Asset" "" "" 0 "",
       Account.mk "L" "" "" "Liability" "" "" 0 ""]
      [LedgerEntry.mk "A" 100 0 DateField.absent DateField.absent,
       LedgerEntry.mk "L" 0 100 DateField.absent DateField.absent]
      none none := by
    refine ⟨by decide, by decide, ?_⟩
    norm_num [signedInitial, includedEntry, belowFrom, aboveTo, pickWhen,
      ite_self]
  exact ⟨hwf, trialBalance_totalDebit_eq_totalCredit _ _ none none hwf⟩

end Tabuledge
